import Mathlib

mutual
/-- A JSON value, modelling serde_json::Value as used throughout the worker.
Arrays and objects are separate mutual inductives so that recursive
functions over them are structural (and hence kernel-reducible).
Numbers keep the integer part as an Int and the raw fraction/exponent
tail as text; no claim depends on float arithmetic. -/
inductive JVal where
  | null : JVal
  | bool (b : Bool) : JVal
  | num (i : Int) (tail : String) : JVal
  | str (s : String) : JVal
  | arr (elems : JArr) : JVal
  | obj (fields : JObj) : JVal

/-- A JSON array, as a bespoke list of JSON values. -/
inductive JArr where
  | nil : JArr
  | cons (hd : JVal) (tl : JArr) : JArr

/-- A JSON object, as a bespoke association list of fields in document order. -/
inductive JObj where
  | nil : JObj
  | cons (key : String) (val : JVal) (tl : JObj) : JObj
end

def JArr.toList : JArr → List JVal
  | .nil => []
  | .cons h t => h :: JArr.toList t

def JObj.toList : JObj → List (String × JVal)
  | .nil => []
  | .cons k v t => (k, v) :: JObj.toList t

def JArr.ofList : List JVal → JArr
  | [] => .nil
  | h :: t => .cons h (JArr.ofList t)

def JObj.ofList : List (String × JVal) → JObj
  | [] => .nil
  | (k, v) :: t => .cons k v (JObj.ofList t)

def lbrace : Char := Char.ofNat 123

def rbrace : Char := Char.ofNat 125

def isWsChar (c : Char) : Bool :=
  c = ' ' || c = '\t' || c = '\n' || c = '\r'

def skipWs : List Char → List Char
  | [] => []
  | c :: cs => if isWsChar c then skipWs cs else c :: cs

def hexVal (c : Char) : Option Nat :=
  if '0' ≤ c ∧ c ≤ '9' then some (c.toNat - 48)
  else if 'a' ≤ c ∧ c ≤ 'f' then some (c.toNat - 87)
  else if 'A' ≤ c ∧ c ≤ 'F' then some (c.toNat - 55)
  else none

/-- Parse the remainder of a JSON string literal, after the opening quote.
Mirrors serde_json's escape handling; unescaped control characters are an
error, as in serde_json. -/
def parseStringRest : List Char → String → Option (String × List Char)
  | [], _ => none
  | c :: cs, acc =>
    if c = '"' then some (acc, cs)
    else if c = '\\' then
      match cs with
      | [] => none
      | e :: cs2 =>
        if e = '"' then parseStringRest cs2 (acc.push '"')
        else if e = '\\' then parseStringRest cs2 (acc.push '\\')
        else if e = '/' then parseStringRest cs2 (acc.push '/')
        else if e = 'b' then parseStringRest cs2 (acc.push (Char.ofNat 8))
        else if e = 'f' then parseStringRest cs2 (acc.push (Char.ofNat 12))
        else if e = 'n' then parseStringRest cs2 (acc.push '\n')
        else if e = 'r' then parseStringRest cs2 (acc.push '\r')
        else if e = 't' then parseStringRest cs2 (acc.push '\t')
        else if e = 'u' then
          match cs2 with
          | h1 :: h2 :: h3 :: h4 :: cs3 =>
            match hexVal h1, hexVal h2, hexVal h3, hexVal h4 with
            | some a, some b, some c3, some d =>
              parseStringRest cs3 (acc.push (Char.ofNat (((a * 16 + b) * 16 + c3) * 16 + d)))
            | _, _, _, _ => none
          | _ => none
        else none
    else if c.toNat < 32 then none
    else parseStringRest cs (acc.push c)

def takeDigits : List Char → List Char × List Char
  | [] => ([], [])
  | c :: cs =>
    if c.isDigit then
      let (ds, rest) := takeDigits cs
      (c :: ds, rest)
    else ([], c :: cs)

def digitsToNat (ds : List Char) : Nat :=
  ds.foldl (fun n c => n * 10 + (c.toNat - 48)) 0

/-- Parse an optional fraction part, returning its raw characters. -/
def parseFracPart : List Char → Option (List Char × List Char)
  | '.' :: r =>
    let (ds, r2) := takeDigits r
    if ds.isEmpty then none else some ('.' :: ds, r2)
  | cs => some ([], cs)

/-- Parse an optional exponent part, returning its raw characters. -/
def parseExpPart : List Char → Option (List Char × List Char)
  | e :: r =>
    if e = 'e' || e = 'E' then
      match r with
      | s :: r2 =>
        if s = '+' || s = '-' then
          let (ds, r3) := takeDigits r2
          if ds.isEmpty then none else some (e :: s :: ds, r3)
        else
          let (ds, r3) := takeDigits r
          if ds.isEmpty then none else some (e :: ds, r3)
      | [] => none
    else some ([], e :: r)
  | [] => some ([], [])

/-- Parse the fraction/exponent tail of a JSON number. -/
def parseNumTail (cs : List Char) : Option (List Char × List Char) :=
  match parseFracPart cs with
  | some (frac, cs1) =>
    match parseExpPart cs1 with
    | some (ex, cs2) => some (frac ++ ex, cs2)
    | none => none
  | none => none

/-- Parse a JSON number at the head of the input (serde_json grammar:
optional minus, no leading zeros, optional fraction and exponent). -/
def parseNumAt (cs : List Char) : Option (JVal × List Char) :=
  let (neg, cs1) :=
    match cs with
    | '-' :: r => (true, r)
    | _ => (false, cs)
  match cs1 with
  | [] => none
  | c :: rest =>
    if c = '0' then
      match rest with
      | d :: _ =>
        if d.isDigit then none
        else
          match parseNumTail rest with
          | some (tail, r2) => some (JVal.num 0 (String.mk tail), r2)
          | none => none
      | [] => some (JVal.num 0 "", [])
    else if c.isDigit then
      let (ds, r) := takeDigits (c :: rest)
      let n : Int := Int.ofNat (digitsToNat ds)
      match parseNumTail r with
      | some (tail, r2) => some (JVal.num (if neg then -n else n) (String.mk tail), r2)
      | none => none
    else none

/-- Parse further array elements after the first, mirroring serde_json:
a comma then a value, until the closing bracket. The value parser for one
nesting level deeper is passed in as pv. -/
def parseArrMoreWith (pv : List Char → Option (JVal × List Char)) :
    Nat → List Char → Option (List JVal × List Char)
  | 0, _ => none
  | Nat.succ fuel, cs =>
    match skipWs cs with
    | [] => none
    | c :: rest =>
      if c = ']' then some ([], rest)
      else if c = ',' then
        match pv rest with
        | some (v, r) =>
          match parseArrMoreWith pv fuel r with
          | some (vs, r2) => some (v :: vs, r2)
          | none => none
        | none => none
      else none

/-- Parse a JSON array body (after the opening bracket). -/
def parseArrWith (pv : List Char → Option (JVal × List Char)) (cs : List Char) :
    Option (List JVal × List Char) :=
  match skipWs cs with
  | [] => none
  | c :: rest =>
    if c = ']' then some ([], rest)
    else
      match pv (c :: rest) with
      | some (v, r) =>
        match parseArrMoreWith pv (r.length + 1) r with
        | some (vs, r2) => some (v :: vs, r2)
        | none => none
      | none => none

/-- Parse one object member (a quoted key, a colon, a value). -/
def parseMemberWith (pv : List Char → Option (JVal × List Char)) (cs : List Char) :
    Option (String × JVal × List Char) :=
  match cs with
  | c :: rest =>
    if c = '"' then
      match parseStringRest rest "" with
      | some (k, r) =>
        match skipWs r with
        | ':' :: r2 =>
          match pv r2 with
          | some (v, r3) => some (k, v, r3)
          | none => none
        | _ => none
      | none => none
    else none
  | [] => none

/-- Parse further object members after the first. -/
def parseObjMoreWith (pv : List Char → Option (JVal × List Char)) :
    Nat → List Char → Option (List (String × JVal) × List Char)
  | 0, _ => none
  | Nat.succ fuel, cs =>
    match skipWs cs with
    | [] => none
    | c :: rest =>
      if c = rbrace then some ([], rest)
      else if c = ',' then
        match parseMemberWith pv (skipWs rest) with
        | some (k, v, r) =>
          match parseObjMoreWith pv fuel r with
          | some (ms, r2) => some ((k, v) :: ms, r2)
          | none => none
        | none => none
      else none

/-- Parse a JSON object body (after the opening brace). -/
def parseObjWith (pv : List Char → Option (JVal × List Char)) (cs : List Char) :
    Option (List (String × JVal) × List Char) :=
  match skipWs cs with
  | [] => none
  | c :: rest =>
    if c = rbrace then some ([], rest)
    else
      match parseMemberWith pv (c :: rest) with
      | some (k, v, r) =>
        match parseObjMoreWith pv (r.length + 1) r with
        | some (ms, r2) => some ((k, v) :: ms, r2)
        | none => none
      | none => none

/-- Parse one JSON value, skipping leading whitespace; fuel bounds nesting
depth (serde_json itself has a recursion limit). Returns the value and the
unconsumed rest of the input. -/
def parseJVal : Nat → List Char → Option (JVal × List Char)
  | 0, _ => none
  | Nat.succ fuel, cs =>
    match skipWs cs with
    | [] => none
    | 'n' :: 'u' :: 'l' :: 'l' :: rest => some (JVal.null, rest)
    | 't' :: 'r' :: 'u' :: 'e' :: rest => some (JVal.bool true, rest)
    | 'f' :: 'a' :: 'l' :: 's' :: 'e' :: rest => some (JVal.bool false, rest)
    | '"' :: rest =>
      match parseStringRest rest "" with
      | some (s, r) => some (JVal.str s, r)
      | none => none
    | '[' :: rest =>
      match parseArrWith (parseJVal fuel) rest with
      | some (vs, r) => some (JVal.arr (JArr.ofList vs), r)
      | none => none
    | c :: rest =>
      if c = lbrace then
        match parseObjWith (parseJVal fuel) rest with
        | some (ms, r) => some (JVal.obj (JObj.ofList ms), r)
        | none => none
      else parseNumAt (c :: rest)

/-- serde_json::from_str on a whole document: one value, then only
whitespace may remain. -/
def parseTop (s : String) : Option JVal :=
  match parseJVal (s.length + 8) s.toList with
  | some (v, rest) => if (skipWs rest).isEmpty then some v else none
  | none => none

/-- The sequence of JSON values read from the front of the input, stopping
at the first syntax error; models serde_json's StreamDeserializer. -/
def streamValsAux : Nat → List Char → List JVal
  | 0, _ => []
  | Nat.succ fuel, cs =>
    match skipWs cs with
    | [] => []
    | c :: rest =>
      match parseJVal (cs.length + 8) (c :: rest) with
      | some (v, r) => v :: streamValsAux fuel r
      | none => []

def streamVals (s : String) : List JVal :=
  streamValsAux (s.length + 1) s.toList

/-- Insert with replacement into an association list keyed by name; models
HashMap::insert (later value wins, one binding per key). -/
def mapInsert {α : Type} : List (String × α) → String → α → List (String × α)
  | [], k, v => [(k, v)]
  | (k', v') :: rest, k, v =>
    if k' = k then (k, v) :: rest else (k', v') :: mapInsert rest k v

/-- Lookup by key in an association list. -/
def lookupKey {α : Type} : List (String × α) → String → Option α
  | [], _ => none
  | (k', v') :: rest, k => if k' = k then some v' else lookupKey rest k

/-- serde_json::from_value to bool: succeeds only on a JSON boolean. -/
def fieldBool : JVal → Option Bool
  | .bool b => some b
  | _ => none

/-- serde_json::from_value to String: succeeds only on a JSON string. -/
def fieldStr : JVal → Option String
  | .str s => some s
  | _ => none

/-- serde_json::from_value to a string-keyed map: succeeds only on a JSON
object; duplicate keys resolve later-wins as in HashMap deserialization. -/
def fieldObj : JVal → Option (List (String × JVal))
  | .obj fs => some ((JObj.toList fs).foldl (fun m p => mapInsert m p.1 p.2) [])
  | _ => none

/-- One wire entry of the variable payload: the Entry struct of
src/structures/process_variables.rs (type, defaulted name, value,
valueInfo). -/
structure Entry where
  typ : String
  name : String
  value : JVal
  value_info : List (String × JVal)

/-- Deserialize the fields of an Entry with serde-derive semantics:
fields may come in any order, unknown fields are ignored, a duplicate
known field or a wrongly-typed field is an error, and a missing field is
an error except for name, which defaults to the empty string. -/
def entryFields : List (String × JVal) → Option String → Option String → Option JVal →
    Option (List (String × JVal)) → Option Entry
  | [], typOpt, nameOpt, valOpt, viOpt =>
    match typOpt, valOpt, viOpt with
    | some t, some v, some vi =>
      some { typ := t, name := nameOpt.getD "", value := v, value_info := vi }
    | _, _, _ => none
  | (k, v) :: rest, typOpt, nameOpt, valOpt, viOpt =>
    if k = "type" then
      match typOpt, fieldStr v with
      | none, some t => entryFields rest (some t) nameOpt valOpt viOpt
      | _, _ => none
    else if k = "name" then
      match nameOpt, fieldStr v with
      | none, some n => entryFields rest typOpt (some n) valOpt viOpt
      | _, _ => none
    else if k = "value" then
      match valOpt with
      | none => entryFields rest typOpt nameOpt (some v) viOpt
      | some _ => none
    else if k = "valueInfo" then
      match viOpt, fieldObj v with
      | none, some vi => entryFields rest typOpt nameOpt valOpt (some vi)
      | _, _ => none
    else entryFields rest typOpt nameOpt valOpt viOpt

/-- serde_json::from_value to Entry. -/
def entryOfJVal : JVal → Option Entry
  | .obj fs => entryFields (JObj.toList fs) none none none none
  | _ => none

/-- The typed JSON payload of a Json variable: the JsonValue struct
(dataFormatName, value, the node-kind booleans and nodeType). -/
structure JsonValue where
  data_format_name : String
  value : JVal
  string : Bool
  object : Bool
  boolean : Bool
  number : Bool
  array : Bool
  null_val : Bool
  node_type : String

/-- Deserialize the fields of a JsonValue with serde-derive semantics
(all nine fields required, unknown fields ignored, duplicates an error). -/
def jsonValueFields : List (String × JVal) → Option String → Option JVal → Option Bool →
    Option Bool → Option Bool → Option Bool → Option Bool → Option Bool → Option String →
    Option JsonValue
  | [], dfn, val, bstr, bobj, bboo, bnum, barr, bnul, ntyp =>
    match dfn, val, bstr, bobj, bboo, bnum, barr, bnul, ntyp with
    | some a, some b, some c, some d, some e, some f, some g, some h, some i =>
      some { data_format_name := a, value := b, string := c, object := d, boolean := e,
             number := f, array := g, null_val := h, node_type := i }
    | _, _, _, _, _, _, _, _, _ => none
  | (k, v) :: rest, dfn, val, bstr, bobj, bboo, bnum, barr, bnul, ntyp =>
    if k = "dataFormatName" then
      match dfn, fieldStr v with
      | none, some s => jsonValueFields rest (some s) val bstr bobj bboo bnum barr bnul ntyp
      | _, _ => none
    else if k = "value" then
      match val with
      | none => jsonValueFields rest dfn (some v) bstr bobj bboo bnum barr bnul ntyp
      | some _ => none
    else if k = "string" then
      match bstr, fieldBool v with
      | none, some b => jsonValueFields rest dfn val (some b) bobj bboo bnum barr bnul ntyp
      | _, _ => none
    else if k = "object" then
      match bobj, fieldBool v with
      | none, some b => jsonValueFields rest dfn val bstr (some b) bboo bnum barr bnul ntyp
      | _, _ => none
    else if k = "boolean" then
      match bboo, fieldBool v with
      | none, some b => jsonValueFields rest dfn val bstr bobj (some b) bnum barr bnul ntyp
      | _, _ => none
    else if k = "number" then
      match bnum, fieldBool v with
      | none, some b => jsonValueFields rest dfn val bstr bobj bboo (some b) barr bnul ntyp
      | _, _ => none
    else if k = "array" then
      match barr, fieldBool v with
      | none, some b => jsonValueFields rest dfn val bstr bobj bboo bnum (some b) bnul ntyp
      | _, _ => none
    else if k = "null" then
      match bnul, fieldBool v with
      | none, some b => jsonValueFields rest dfn val bstr bobj bboo bnum barr (some b) ntyp
      | _, _ => none
    else if k = "nodeType" then
      match ntyp, fieldStr v with
      | none, some s => jsonValueFields rest dfn val bstr bobj bboo bnum barr bnul (some s)
      | _, _ => none
    else jsonValueFields rest dfn val bstr bobj bboo bnum barr bnul ntyp

/-- serde_json::from_value to JsonValue. -/
def jsonValueOfJVal : JVal → Option JsonValue
  | .obj fs => jsonValueFields (JObj.toList fs) none none none none none none none none none
  | _ => none

/-- A typed Json variable (value plus valueInfo metadata). -/
structure JsonVar where
  json_value : JsonValue
  value_info : List (String × JVal)

/-- A typed Boolean variable. -/
structure BoolVar where
  value : Bool
  value_info : List (String × JVal)

/-- A typed String variable. -/
structure StringVar where
  value : String
  value_info : List (String × JVal)

/-- The tagged union of decoded process-instance variables. -/
inductive ProcessInstanceVariable where
  | json (v : JsonVar)
  | boolean (v : BoolVar)
  | string (v : StringVar)

/-- The mapping from variable name to typed variable handed to handlers. -/
abbrev VarMap : Type := List (String × ProcessInstanceVariable)

/-- The fallback JsonValue substituted when a Json entry's value does not
parse under the JsonValue schema (the unwrap_or_else closure in
insert_entry). -/
def fallbackJsonValue : JsonValue :=
  { data_format_name := "", value := JVal.null, string := false, object := false,
    boolean := false, number := false, array := false, null_val := true, node_type := "" }

/-- insert_entry of src/structures/process_variables.rs: convert one Entry
by its declared type, substituting zero values on coercion failure and the
null placeholder for an unparseable Json payload, and skipping entries of
unknown type. -/
def insert_entry (result : VarMap) (name : String) (e : Entry) : VarMap :=
  match e.typ with
  | "Json" =>
    mapInsert result name (ProcessInstanceVariable.json
      { json_value := (jsonValueOfJVal e.value).getD fallbackJsonValue,
        value_info := e.value_info })
  | "Boolean" =>
    mapInsert result name (ProcessInstanceVariable.boolean
      { value := (fieldBool e.value).getD false, value_info := e.value_info })
  | "String" =>
    mapInsert result name (ProcessInstanceVariable.string
      { value := (fieldStr e.value).getD "", value_info := e.value_info })
  | _ => result

/-- from_value to HashMap String Entry: every member value must be an
Entry; duplicate names resolve later-wins. -/
def mapEntriesFold : List (String × JVal) → List (String × Entry) → Option (List (String × Entry))
  | [], acc => some acc
  | (k, v) :: rest, acc =>
    match entryOfJVal v with
    | some e => mapEntriesFold rest (mapInsert acc k e)
    | none => none

def hashMapEntriesOfJVal : JVal → Option (List (String × Entry))
  | .obj fs => mapEntriesFold (JObj.toList fs) []
  | _ => none

def vecEntriesOfJVal : JVal → Option (List Entry)
  | .arr xs => (JArr.toList xs).mapM entryOfJVal
  | _ => none

def vecMapsOfJVal : JVal → Option (List (List (String × Entry)))
  | .arr xs => (JArr.toList xs).mapM hashMapEntriesOfJVal
  | _ => none

/-- Strategy 1 parse: serde_json::from_str to HashMap String Entry. -/
def shape1 (s : String) : Option (List (String × Entry)) :=
  (parseTop s).bind hashMapEntriesOfJVal

/-- Strategy 2 parse: serde_json::from_str to Vec Entry (flat array). -/
def shape2 (s : String) : Option (List Entry) :=
  (parseTop s).bind vecEntriesOfJVal

/-- Strategy 3 parse: serde_json::from_str to Vec of object maps. -/
def shape3 (s : String) : Option (List (List (String × Entry))) :=
  (parseTop s).bind vecMapsOfJVal

/-- Convert a prefix of stream values while the element converter
succeeds; the Rust loops break at the first stream error. -/
def takeWhileConv {α : Type} (f : JVal → Option α) : List JVal → List α
  | [] => []
  | v :: vs =>
    match f v with
    | some a => a :: takeWhileConv f vs
    | none => []

/-- Insert a list of (name, entry) pairs, in order (the map-iteration
loops of strategies 1 and 3). -/
def insertPairs (r : VarMap) (ps : List (String × Entry)) : VarMap :=
  ps.foldl (fun r p => insert_entry r p.1 p.2) r

def processShape1 (m : List (String × Entry)) : VarMap :=
  insertPairs [] m

/-- Strategy 2 processing: entries with an empty name are skipped. -/
def processShape2 (l : List Entry) : VarMap :=
  l.foldl (fun r e => if e.name = "" then r else insert_entry r e.name e) []

def processShape3 (ms : List (List (String × Entry))) : VarMap :=
  ms.foldl (fun r m => insertPairs r m) []

/-- Strategy 4 processing over the streamed JSON values: first interpret
them as flat entries (4a); when no named entry was produced, reinterpret
the stream as object maps (4b), continuing from the 4a result map exactly
as the Rust does. -/
def processShape4 (vals : List JVal) : VarMap :=
  let p := takeWhileConv entryOfJVal vals
  let r1 := p.foldl (fun r e => if e.name = "" then r else insert_entry r e.name e) []
  if p.any (fun e => !(e.name == "")) then r1
  else
    let q := takeWhileConv hashMapEntriesOfJVal vals
    q.foldl (fun r m => insertPairs r m) r1

/-- parse_process_instance_variables of src/structures/process_variables.rs:
try the four payload shapes in order; the first that parses structurally
determines the result. -/
def parse_process_instance_variables (s : String) : VarMap :=
  match shape1 s with
  | some m => processShape1 m
  | none =>
    match shape2 s with
    | some l => processShape2 l
    | none =>
      match shape3 s with
      | some ms => processShape3 ms
      | none => processShape4 (streamVals s)

/-- The per-entry conversion loop of the superseded single-shape decoder in
src/process_variables/mod.rs: the declared type selects the variant, but the
value coercions go through serde_json::from_value(..).unwrap(), so a value
that disagrees with its declared type panics; Except.error models that
panic. Unknown types fall through the loop (continue). -/
def legacy_convert : List (String × Entry) → VarMap → Except Unit VarMap
  | [], acc => Except.ok acc
  | (name, e) :: rest, acc =>
    match e.typ with
    | "Json" =>
      match jsonValueOfJVal e.value with
      | some jv =>
        legacy_convert rest (mapInsert acc name
          (ProcessInstanceVariable.json { json_value := jv, value_info := e.value_info }))
      | none => Except.error ()
    | "Boolean" =>
      match fieldBool e.value with
      | some b =>
        legacy_convert rest (mapInsert acc name
          (ProcessInstanceVariable.boolean { value := b, value_info := e.value_info }))
      | none => Except.error ()
    | "String" =>
      match fieldStr e.value with
      | some v =>
        legacy_convert rest (mapInsert acc name
          (ProcessInstanceVariable.string { value := v, value_info := e.value_info }))
      | none => Except.error ()
    | _ => legacy_convert rest acc

/-- parse_process_instance_variables of src/process_variables/mod.rs (the
single-shape decoder imported by src/api.rs): the outer from_str failure is
tolerated (unwrap_or_else yields an empty map), but per-entry coercion goes
through unwrap and can panic. -/
def legacy_parse_process_instance_variables (s : String) : Except Unit VarMap :=
  legacy_convert ((shape1 s).getD []) []

def hexDigitChar (n : Nat) : Char :=
  if n < 10 then Char.ofNat (48 + n) else Char.ofNat (87 + n)

def hex4 (n : Nat) : String :=
  String.mk [hexDigitChar ((n / 4096) % 16), hexDigitChar ((n / 256) % 16),
             hexDigitChar ((n / 16) % 16), hexDigitChar (n % 16)]

/-- Escape one character of a JSON string the way serde_json does when
serializing: quote and backslash get a backslash, the named control
characters get their short escapes, other control characters get u-escapes,
everything else is verbatim. -/
def escapeJsonChar (c : Char) : String :=
  if c = '"' then "\\\""
  else if c = '\\' then "\\\\"
  else if c.toNat ≥ 32 then String.singleton c
  else if c = Char.ofNat 8 then "\\b"
  else if c = Char.ofNat 12 then "\\f"
  else if c = '\n' then "\\n"
  else if c = '\r' then "\\r"
  else if c = '\t' then "\\t"
  else "\\u" ++ hex4 c.toNat

def joinAll : List String → String
  | [] => ""
  | x :: xs => x ++ joinAll xs

def quoteJsonString (s : String) : String :=
  "\"" ++ joinAll (s.toList.map escapeJsonChar) ++ "\""

mutual
/-- Compact JSON serialization, modelling serde_json::Value::to_string;
object fields print in the order held by the JObj. -/
def jsonToString : JVal → String
  | .null => "null"
  | .bool true => "true"
  | .bool false => "false"
  | .num i tail => toString i ++ tail
  | .str s => quoteJsonString s
  | .arr xs => "[" ++ jarrToString xs ++ "]"
  | .obj fs => String.singleton lbrace ++ jobjToString fs ++ String.singleton rbrace

/-- Serialize array elements, comma separated. -/
def jarrToString : JArr → String
  | .nil => ""
  | .cons h JArr.nil => jsonToString h
  | .cons h (JArr.cons h2 t) => jsonToString h ++ "," ++ jarrToString (JArr.cons h2 t)

/-- Serialize object members, comma separated. -/
def jobjToString : JObj → String
  | .nil => ""
  | .cons k v JObj.nil => quoteJsonString k ++ ":" ++ jsonToString v
  | .cons k v (JObj.cons k2 v2 t) =>
    quoteJsonString k ++ ":" ++ jsonToString v ++ "," ++ jobjToString (JObj.cons k2 v2 t)
end

/-- An engine-bound output variable (value, declared type tag, valueInfo),
the OutVariable struct of src/types.rs. -/
structure OutVariable where
  value : JVal
  typ : String
  value_info : List (String × JVal)

/-- out_string of src/types.rs. -/
def out_string (value : String) : OutVariable :=
  { value := JVal.str value, typ := "String", value_info := [] }

/-- out_bool of src/types.rs. -/
def out_bool (value : Bool) : OutVariable :=
  { value := JVal.bool value, typ := "Boolean", value_info := [] }

/-- out_json of src/types.rs: the value is serialized to a string and the
serializationDataFormat metadata entry names application/json. -/
def out_json (value : JVal) : OutVariable :=
  { value := JVal.str (jsonToString value),
    typ := "Json",
    value_info := [("serializationDataFormat", JVal.str ("application/json"))] }

/-- The error a handler can return: either a typed BpmnError (business
error, carrying code and optional message) or any other error, carried by
its display text (what err.to_string() yields in the polling loop). -/
inductive HandlerError where
  | bpmn (code : String) (message : Option String)
  | other (display : String)

abbrev InputVariables : Type := VarMap

abbrev OutputVariables : Type := List (String × OutVariable)

/-- ExternalTaskFn of src/types.rs: a handler maps the input variables to
output variables or an error. -/
abbrev ExternalTaskFn : Type := InputVariables → Except HandlerError OutputVariables

/-- A registered handler (name paired with function), the Handler struct
of src/registry.rs; the registry itself is the inventory iteration
sequence, modelled as a list in iteration order. -/
structure Handler where
  name : String
  func : ExternalTaskFn

abbrev Registry : Type := List Handler

/-- find of src/registry.rs: first handler whose name equals the query. -/
def find : Registry → String → Option ExternalTaskFn
  | [], _ => none
  | h :: hs, name => if h.name = name then some h.func else find hs name

/-- all_names of src/registry.rs. -/
def all_names (reg : Registry) : List String :=
  reg.map (fun h => h.name)

/-- The worker configuration, the ConfigParams struct of src/settings.rs
(url kept as plain text; the claims do not touch URL parsing). -/
structure ConfigParams where
  url : String
  username : String
  password : String
  poll_interval : Nat
  id : String
  lock_duration : Nat

/-- The documented defaults of ConfigParams (src/settings.rs). -/
def defaultConfigParams : ConfigParams :=
  { url := "http://localhost:8080", username := "", password := "",
    poll_interval := 500, id := "operaton_task_worker", lock_duration := 60000 }

/-- A fetched external task, the ServiceTask struct of src/structures.rs. -/
structure ServiceTask where
  id : String
  activity_id : String
  process_instance_id : String
  suspended : Bool
  topic_name : String
  priority : Nat
  business_key : String
  worker_id : Option String

/-- The environment one poll cycle runs against: whether each lock POST
succeeds, the raw text answered by the variable-instance endpoint (none
models a transport error), and the handler registry. -/
structure PollEnv where
  lock_result : String → Bool
  variables_response : String → Option String
  registry : Registry

/-- The observable calls the polling loop makes for one task, in order. -/
inductive Event where
  | lock (task_id worker_id : String) (lock_duration : Nat)
  | fetch_variables (process_instance_id : String)
  | invoke_handler (activity_id : String)
  | complete (task_id worker_id : String) (vars : OutputVariables)
  | report_failure (task_id message : String) (details : Option String)
      (retries retry_timeout : Nat)
  | report_bpmn_error (task_id code : String) (message : Option String)
      (vars : Option OutputVariables)

/-- The input variables for a task: the fetched text decoded by the
variable decoder, degraded to the empty mapping on a transport error
(the unwrap_or_else in the polling loop). -/
def task_input_vars (env : PollEnv) (t : ServiceTask) : InputVariables :=
  match env.variables_response t.process_instance_id with
  | some text => parse_process_instance_variables text
  | none => []

/-- One iteration of the task loop in start_polling_loop
(src/polling.rs lines 30-83): lock with the hardcoded 60,000 ms duration;
on lock failure continue; fetch and decode variables; look up the handler
by activity id (skip when absent); dispatch and report the outcome by its
classification. -/
def process_service_task (config : ConfigParams) (env : PollEnv) (t : ServiceTask) :
    List Event :=
  if env.lock_result t.id then
    Event.lock t.id config.id 60000 ::
    Event.fetch_variables t.process_instance_id ::
    (match find env.registry t.activity_id with
     | none => []
     | some f =>
       Event.invoke_handler t.activity_id ::
       (match f (task_input_vars env t) with
        | Except.ok outs => [Event.complete t.id config.id outs]
        | Except.error (HandlerError.bpmn code msg) =>
          [Event.report_bpmn_error t.id code msg none]
        | Except.error (HandlerError.other d) =>
          [Event.report_failure t.id d none 0 0]))
  else [Event.lock t.id config.id 60000]

/-- The whole task loop of one poll cycle: each fetched task in order. -/
def process_batch (config : ConfigParams) (env : PollEnv) : List ServiceTask → List Event
  | [] => []
  | t :: ts => process_service_task config env t ++ process_batch config env ts

/-- Whether an event is one of the three report calls. -/
def isReportEvent : Event → Bool
  | Event.complete _ _ _ => true
  | Event.report_failure _ _ _ _ _ => true
  | Event.report_bpmn_error _ _ _ _ => true
  | _ => false

/-- Whether an event is a handler invocation. -/
def isInvokeEvent : Event → Bool
  | Event.invoke_handler _ => true
  | _ => false

def knownTypeB (t : String) : Bool :=
  if t = "Json" then true
  else if t = "Boolean" then true
  else if t = "String" then true
  else false

/-- The variable produced for an entry of known declared type (the three
non-skipping arms of insert_entry). -/
def var_of_entry (e : Entry) : ProcessInstanceVariable :=
  match e.typ with
  | "Json" =>
    ProcessInstanceVariable.json
      { json_value := (jsonValueOfJVal e.value).getD fallbackJsonValue,
        value_info := e.value_info }
  | "Boolean" =>
    ProcessInstanceVariable.boolean
      { value := (fieldBool e.value).getD false, value_info := e.value_info }
  | "String" =>
    ProcessInstanceVariable.string
      { value := (fieldStr e.value).getD "", value_info := e.value_info }
  | _ =>
    ProcessInstanceVariable.string { value := "", value_info := [] }

/-- The type tag of a decoded variable. -/
def tag_of : ProcessInstanceVariable → String
  | ProcessInstanceVariable.json _ => "Json"
  | ProcessInstanceVariable.boolean _ => "Boolean"
  | ProcessInstanceVariable.string _ => "String"

def config_lock_12345 : ConfigParams :=
  { defaultConfigParams with lock_duration := 12345 }

def env_lock_fails : PollEnv :=
  { lock_result := fun _ => false, variables_response := fun _ => none, registry := [] }

def task_t1 : ServiceTask :=
  { id := "t1", activity_id := "act1", process_instance_id := "p1", suspended := false,
    topic_name := "", priority := 0, business_key := "", worker_id := none }

def entryPairs (l : List Entry) : List (String × Entry) :=
  l.filterMap (fun e => if e.name = "" then none else some (e.name, e))

def handler_ok : ExternalTaskFn := fun _ => Except.ok [(("r"), out_string ("done"))]

def handler_err : ExternalTaskFn := fun _ => Except.error (HandlerError.other ("boom"))

def env_ok : PollEnv :=
  { lock_result := fun _ => true, variables_response := fun _ => none,
    registry := [{ name := "act1", func := handler_ok }] }

def env_no_handler : PollEnv :=
  { lock_result := fun _ => true, variables_response := fun _ => none, registry := [] }

def reg_dup : Registry :=
  [{ name := "h1", func := handler_ok }, { name := "h1", func := handler_err }]

def entry_str_mismatch : Entry :=
  { typ := "String", name := "", value := JVal.bool true, value_info := [] }

def entry_unknown : Entry :=
  { typ := "Integer", name := "", value := JVal.null, value_info := [] }

def payload_bool : String :=
  "\x7b\"k\":\x7b\"type\":\"Boolean\",\"value\":true,\"valueInfo\":\x7b\x7d\x7d\x7d"

def payload_flat_mixed : String :=
  "[\x7b\"type\":\"String\",\"value\":\"x\",\"valueInfo\":\x7b\x7d\x7d,\x7b\"type\":\"String\",\"value\":\"y\",\"valueInfo\":\x7b\x7d,\"name\":\"m\"\x7d]"

def payload_seq_maps : String :=
  "\x7b\"a\":\x7b\"type\":\"String\",\"value\":\"u\",\"valueInfo\":\x7b\x7d\x7d\x7d \x7b\"b\":\x7b\"type\":\"Boolean\",\"value\":true,\"valueInfo\":\x7b\x7d\x7d\x7d"

/-- C5: every lock request carries the configured worker id but a lock
duration hardcoded to 60000 ms in the polling loop, ignoring the
lock_duration field of the configuration (here set to 12345). -/
theorem lock_request_duration_hardcoded :
    (∀ (config : ConfigParams) (env : PollEnv) (t : ServiceTask),
      (process_service_task config env t).head? = some (Event.lock t.id config.id 60000)) ∧
    config_lock_12345.lock_duration = 12345 ∧
    process_service_task config_lock_12345 env_lock_fails task_t1 =
      [Event.lock ("t1") ("operaton_task_worker") 60000] := by
  refine ⟨?_, rfl, rfl⟩
  intro config env t
  unfold process_service_task
  by_cases h : env.lock_result t.id <;> simp [h]

/-- C9: the Json output-variable constructor produces type tag Json, a value
field holding the string serialization of the given JSON value (an escaped
string, never a native JSON value), and a serializationDataFormat metadata
entry equal to application/json. -/
theorem out_json_escaped_string_format :
    (∀ v : JVal,
      (out_json v).typ = "Json" ∧
      (out_json v).value = JVal.str (jsonToString v) ∧
      lookupKey (out_json v).value_info ("serializationDataFormat") =
        some (JVal.str ("application/json"))) ∧
    (out_json (JVal.obj (JObj.cons ("a") (JVal.num 1 "") JObj.nil))).value =
      JVal.str ("\x7b\"a\":1\x7d") := by
  exact ⟨fun v => ⟨rfl, rfl, rfl⟩, rfl⟩

/-- C8: registry lookup succeeds exactly when some registered handler name
equals the queried string; with duplicate registrations the first handler in
iteration order wins; all_names contains the name of every registered
handler. -/
theorem registry_exact_match_first_wins :
    (∀ (reg : Registry) (name : String),
      (find reg name).isSome ↔ ∃ h ∈ reg, h.name = name) ∧
    (∀ (pre post : List Handler) (h : Handler) (name : String),
      h.name = name → (∀ h2 ∈ pre, h2.name ≠ name) →
      find (pre ++ h :: post) name = some h.func) ∧
    (∀ (reg : Registry) (h : Handler), h ∈ reg → h.name ∈ all_names reg) := by
  refine ⟨?_, ?_, ?_⟩
  · intro reg name
    induction reg with
    | nil => simp [find]
    | cons a as ih =>
      by_cases ha : a.name = name
      · simp [find, ha]
      · simp only [find, ha, if_neg, ite_false, List.mem_cons]
        rw [ih]
        constructor
        · rintro ⟨h, hm, hn⟩
          exact ⟨h, Or.inr hm, hn⟩
        · rintro ⟨h, hm | hm, hn⟩
          · exact absurd (hm ▸ hn) ha
          · exact ⟨h, hm, hn⟩
  · intro pre post h name hname hpre
    induction pre with
    | nil => simp [find, hname]
    | cons a as ih =>
      have hne : a.name ≠ name := hpre a (List.mem_cons_self a as)
      simp only [List.cons_append, find, hne, ite_false, if_neg]
      exact ih (fun h2 hm => hpre h2 (List.mem_cons_of_mem a hm))
  · intro reg h hm
    exact List.mem_map_of_mem _ hm

/-- C1: for a locked task dispatched to a registered handler, a success
outcome sends complete exactly once carrying the handler output variables, a
business error sends report_bpmn_error exactly once carrying its code and
optional message, and any other error sends report_failure exactly once
carrying the display text with retries 0; in every case exactly one report
call is made and no other report is issued. -/
theorem dispatch_report_matches_handler_outcome :
    ∀ (config : ConfigParams) (env : PollEnv) (t : ServiceTask) (f : ExternalTaskFn),
      env.lock_result t.id = true →
      find env.registry t.activity_id = some f →
      ((∀ outs, f (task_input_vars env t) = Except.ok outs →
          process_service_task config env t =
            [Event.lock t.id config.id 60000,
             Event.fetch_variables t.process_instance_id,
             Event.invoke_handler t.activity_id,
             Event.complete t.id config.id outs]) ∧
       (∀ code msg, f (task_input_vars env t) = Except.error (HandlerError.bpmn code msg) →
          process_service_task config env t =
            [Event.lock t.id config.id 60000,
             Event.fetch_variables t.process_instance_id,
             Event.invoke_handler t.activity_id,
             Event.report_bpmn_error t.id code msg none]) ∧
       (∀ d, f (task_input_vars env t) = Except.error (HandlerError.other d) →
          process_service_task config env t =
            [Event.lock t.id config.id 60000,
             Event.fetch_variables t.process_instance_id,
             Event.invoke_handler t.activity_id,
             Event.report_failure t.id d none 0 0]) ∧
       ((process_service_task config env t).filter isReportEvent).length = 1) := by
  intro config env t f hlock hfind
  refine ⟨?_, ?_, ?_, ?_⟩
  · intro outs hres
    simp [process_service_task, hlock, hfind, hres]
  · intro code msg hres
    simp [process_service_task, hlock, hfind, hres]
  · intro d hres
    simp [process_service_task, hlock, hfind, hres]
  · cases hres : f (task_input_vars env t) with
    | ok outs => simp [process_service_task, hlock, hfind, hres, isReportEvent]
    | error e =>
      cases e with
      | bpmn code msg => simp [process_service_task, hlock, hfind, hres, isReportEvent]
      | other d => simp [process_service_task, hlock, hfind, hres, isReportEvent]

/-- C7: when the lock attempt fails, or no handler is registered for the
activity name, the engine makes no report call and invokes no handler for
that task, and every subsequent task of the batch is still processed. -/
theorem skipped_tasks_no_reports_batch_continues :
    ∀ (config : ConfigParams) (env : PollEnv) (t : ServiceTask),
      (env.lock_result t.id = false →
        process_service_task config env t = [Event.lock t.id config.id 60000] ∧
        (process_service_task config env t).filter isReportEvent = [] ∧
        (process_service_task config env t).filter isInvokeEvent = []) ∧
      (env.lock_result t.id = true → find env.registry t.activity_id = none →
        process_service_task config env t =
          [Event.lock t.id config.id 60000, Event.fetch_variables t.process_instance_id] ∧
        (process_service_task config env t).filter isReportEvent = [] ∧
        (process_service_task config env t).filter isInvokeEvent = []) ∧
      (∀ ts, process_batch config env (t :: ts) =
        process_service_task config env t ++ process_batch config env ts) := by
  intro config env t
  refine ⟨?_, ?_, ?_⟩
  · intro hlock
    refine ⟨?_, ?_, ?_⟩ <;> simp [process_service_task, hlock, isReportEvent, isInvokeEvent]
  · intro hlock hfind
    refine ⟨?_, ?_, ?_⟩ <;> simp [process_service_task, hlock, hfind, isReportEvent, isInvokeEvent]
  · intro ts
    rfl

/-- C2: the decoder attempts the four payload shapes in the fixed order
object map, flat entry array, array of maps, concatenated sequence; the
first shape that parses without structural error determines the result and
no later shape is attempted, even when that shape yields zero entries; a
later shape is tried only when every earlier shape fails structurally. -/
theorem decoder_shape_order_first_success :
    ∀ s : String,
      (∀ m, shape1 s = some m →
        parse_process_instance_variables s = processShape1 m) ∧
      (shape1 s = none → ∀ l, shape2 s = some l →
        parse_process_instance_variables s = processShape2 l) ∧
      (shape1 s = none → shape2 s = none → ∀ ms, shape3 s = some ms →
        parse_process_instance_variables s = processShape3 ms) ∧
      (shape1 s = none → shape2 s = none → shape3 s = none →
        parse_process_instance_variables s = processShape4 (streamVals s)) ∧
      (shape1 s = some [] → parse_process_instance_variables s = []) ∧
      (shape1 s = none → shape2 s = some [] → parse_process_instance_variables s = []) := by
  intro s
  refine ⟨?_, ?_, ?_, ?_, ?_, ?_⟩
  · intro m h1
    simp [parse_process_instance_variables, h1]
  · intro h1 l h2
    simp [parse_process_instance_variables, h1, h2]
  · intro h1 h2 ms h3
    simp [parse_process_instance_variables, h1, h2, h3]
  · intro h1 h2 h3
    simp [parse_process_instance_variables, h1, h2, h3]
  · intro h1
    simp [parse_process_instance_variables, h1, processShape1, insertPairs]
  · intro h1 h2
    simp [parse_process_instance_variables, h1, h2, processShape2]

theorem insertPairs_nil (r : VarMap) : insertPairs r [] = r := rfl

theorem insertPairs_cons (r : VarMap) (p : String × Entry) (ps : List (String × Entry)) :
    insertPairs r (p :: ps) = insertPairs (insert_entry r p.1 p.2) ps := rfl

theorem insert_entry_unknown (r : VarMap) (n : String) (e : Entry)
    (h : knownTypeB e.typ = false) : insert_entry r n e = r := by
  obtain ⟨et, en, ev, evi⟩ := e
  simp only [knownTypeB] at h
  unfold insert_entry
  split <;> simp_all

theorem insert_entry_known (r : VarMap) (n : String) (e : Entry)
    (h : knownTypeB e.typ = true) : insert_entry r n e = mapInsert r n (var_of_entry e) := by
  obtain ⟨et, en, ev, evi⟩ := e
  by_cases hJ : et = "Json"
  · subst hJ; rfl
  by_cases hB : et = "Boolean"
  · subst hB; rfl
  by_cases hS : et = "String"
  · subst hS; rfl
  simp [knownTypeB, hJ, hB, hS] at h

theorem tag_var_of_entry (e : Entry) (h : knownTypeB e.typ = true) :
    tag_of (var_of_entry e) = e.typ := by
  obtain ⟨et, en, ev, evi⟩ := e
  by_cases hJ : et = "Json"
  · subst hJ; rfl
  by_cases hB : et = "Boolean"
  · subst hB; rfl
  by_cases hS : et = "String"
  · subst hS; rfl
  simp [knownTypeB, hJ, hB, hS] at h

theorem lookup_mapInsert_self {α : Type} (m : List (String × α)) (k : String) (v : α) :
    lookupKey (mapInsert m k v) k = some v := by
  induction m with
  | nil => simp [mapInsert, lookupKey]
  | cons p rest ih =>
    obtain ⟨k', v'⟩ := p
    by_cases h : k' = k
    · simp [mapInsert, h, lookupKey]
    · simp [mapInsert, h, lookupKey, ih]

theorem lookup_mapInsert_ne {α : Type} (m : List (String × α)) (k k2 : String) (v : α)
    (h : k2 ≠ k) : lookupKey (mapInsert m k v) k2 = lookupKey m k2 := by
  induction m with
  | nil =>
    have hne : k ≠ k2 := Ne.symm h
    simp [mapInsert, lookupKey, hne]
  | cons p rest ih =>
    obtain ⟨k', v'⟩ := p
    by_cases hk : k' = k
    · subst hk
      have hne : k' ≠ k2 := Ne.symm h
      simp [mapInsert, lookupKey, hne]
    · by_cases hk2 : k' = k2
      · simp [mapInsert, hk, lookupKey, hk2, h]
      · simp [mapInsert, hk, lookupKey, hk2, ih]

theorem lookupKey_eq_none_iff {α : Type} (m : List (String × α)) (k : String) :
    lookupKey m k = none ↔ k ∉ m.map Prod.fst := by
  induction m with
  | nil => simp [lookupKey]
  | cons p rest ih =>
    obtain ⟨k', v'⟩ := p
    by_cases h : k' = k
    · simp [lookupKey, h]
    · simp [lookupKey, h, ih, Ne.symm h]

theorem length_mapInsert_fresh {α : Type} (m : List (String × α)) (k : String) (v : α)
    (h : lookupKey m k = none) : (mapInsert m k v).length = m.length + 1 := by
  induction m with
  | nil => simp [mapInsert]
  | cons p rest ih =>
    obtain ⟨k', v'⟩ := p
    by_cases hk : k' = k
    · simp [lookupKey, hk] at h
    · simp only [lookupKey, hk, if_neg, ite_false] at h
      simp [mapInsert, hk, List.length_cons, ih h]

theorem mem_keys_mapInsert {α : Type} (m : List (String × α)) (k a : String) (v : α) :
    a ∈ (mapInsert m k v).map Prod.fst ↔ a = k ∨ a ∈ m.map Prod.fst := by
  induction m with
  | nil => simp [mapInsert]
  | cons p rest ih =>
    obtain ⟨k', v'⟩ := p
    by_cases hk : k' = k
    · subst hk
      simp [mapInsert]
      try tauto
    · simp [mapInsert, hk, ih]
      try tauto

theorem nodup_keys_mapInsert {α : Type} (m : List (String × α)) (k : String) (v : α)
    (h : (m.map Prod.fst).Nodup) : ((mapInsert m k v).map Prod.fst).Nodup := by
  induction m with
  | nil => simp [mapInsert]
  | cons p rest ih =>
    obtain ⟨k', v'⟩ := p
    simp only [List.map_cons, List.nodup_cons] at h
    by_cases hk : k' = k
    · subst hk
      simpa [mapInsert] using h
    · have h1 : k' ∉ (mapInsert rest k v).map Prod.fst := by
        rw [mem_keys_mapInsert]
        rintro (hh | hh)
        · exact hk hh
        · exact h.1 hh
      have h2 := ih h.2
      simp [mapInsert, hk, List.nodup_cons, h1, h2]

theorem insertPairs_char (ps : List (String × Entry)) :
    ∀ r : VarMap,
      (∀ p ∈ ps, knownTypeB p.2.typ = true) →
      (ps.map Prod.fst).Nodup →
      (∀ p ∈ ps, lookupKey r p.1 = none) →
      (insertPairs r ps).length = r.length + ps.length ∧
      (∀ p ∈ ps, lookupKey (insertPairs r ps) p.1 = some (var_of_entry p.2)) ∧
      (∀ k, k ∉ ps.map Prod.fst → lookupKey (insertPairs r ps) k = lookupKey r k) := by
  induction ps with
  | nil =>
    intro r _ _ _
    exact ⟨rfl, by simp, fun k _ => rfl⟩
  | cons p ps ih =>
    intro r hknown hnodup hfresh
    obtain ⟨k0, e0⟩ := p
    have hk0 : knownTypeB e0.typ = true := hknown (k0, e0) (List.mem_cons_self _ _)
    have hins : insertPairs r ((k0, e0) :: ps) =
        insertPairs (mapInsert r k0 (var_of_entry e0)) ps := by
      rw [insertPairs_cons, insert_entry_known r k0 e0 hk0]
    simp only [List.map_cons, List.nodup_cons] at hnodup
    have hfresh0 : lookupKey r k0 = none := hfresh (k0, e0) (List.mem_cons_self _ _)
    have hfresh' : ∀ p ∈ ps, lookupKey (mapInsert r k0 (var_of_entry e0)) p.1 = none := by
      intro p hp
      have hne : p.1 ≠ k0 := by
        intro hh
        exact hnodup.1 (hh ▸ List.mem_map_of_mem Prod.fst hp)
      rw [lookup_mapInsert_ne r k0 p.1 _ hne]
      exact hfresh p (List.mem_cons_of_mem _ hp)
    have hknown' : ∀ p ∈ ps, knownTypeB p.2.typ = true :=
      fun p hp => hknown p (List.mem_cons_of_mem _ hp)
    obtain ⟨ihlen, ihlook, ihpres⟩ := ih (mapInsert r k0 (var_of_entry e0)) hknown' hnodup.2 hfresh'
    refine ⟨?_, ?_, ?_⟩
    · rw [hins, ihlen, length_mapInsert_fresh r k0 _ hfresh0]
      simp [Nat.add_assoc, Nat.add_comm 1 ps.length]
    · intro p hp
      rcases List.mem_cons.mp hp with hp0 | hp1
      · subst hp0
        rw [hins, ihpres _ hnodup.1, lookup_mapInsert_self]
      · rw [hins]
        exact ihlook p hp1
    · intro k hk
      simp only [List.map_cons, List.mem_cons] at hk
      push_neg at hk
      rw [hins, ihpres k hk.2, lookup_mapInsert_ne r k0 k _ hk.1]

theorem mapEntriesFold_nodup (fs : List (String × JVal)) :
    ∀ (acc : List (String × Entry)) (m : List (String × Entry)),
      (acc.map Prod.fst).Nodup → mapEntriesFold fs acc = some m →
      (m.map Prod.fst).Nodup := by
  induction fs with
  | nil =>
    intro acc m hacc h
    simp only [mapEntriesFold, Option.some.injEq] at h
    exact h ▸ hacc
  | cons p rest ih =>
    intro acc m hacc h
    obtain ⟨k, v⟩ := p
    simp only [mapEntriesFold] at h
    cases he : entryOfJVal v with
    | none => rw [he] at h; exact absurd h (by simp)
    | some e =>
      rw [he] at h
      exact ih (mapInsert acc k e) m (nodup_keys_mapInsert acc k e hacc) h

theorem shape1_nodup (s : String) (m : List (String × Entry)) (h : shape1 s = some m) :
    (m.map Prod.fst).Nodup := by
  unfold shape1 at h
  cases hp : parseTop s with
  | none => rw [hp] at h; exact absurd h (by simp)
  | some v =>
    rw [hp] at h
    replace h : hashMapEntriesOfJVal v = some m := h
    cases v with
    | obj fs =>
      simp only [hashMapEntriesOfJVal] at h
      exact mapEntriesFold_nodup (JObj.toList fs) [] m (by simp) h
    | null => exact absurd h (by simp [hashMapEntriesOfJVal])
    | bool b => exact absurd h (by simp [hashMapEntriesOfJVal])
    | num i t => exact absurd h (by simp [hashMapEntriesOfJVal])
    | str s2 => exact absurd h (by simp [hashMapEntriesOfJVal])
    | arr xs => exact absurd h (by simp [hashMapEntriesOfJVal])

theorem skipFold_eq_insertPairs (l : List Entry) :
    ∀ r : VarMap,
      l.foldl (fun r e => if e.name = "" then r else insert_entry r e.name e) r =
        insertPairs r (entryPairs l) := by
  induction l with
  | nil => intro r; rfl
  | cons e l ih =>
    intro r
    by_cases he : e.name = ""
    · simp only [List.foldl_cons, he, if_pos, ite_true, entryPairs, List.filterMap_cons]
      exact ih r
    · simp only [List.foldl_cons, he, if_neg, ite_false, entryPairs, List.filterMap_cons]
      exact ih (insert_entry r e.name e)

theorem allUnnamed_skipFold (l : List Entry) (h : ∀ e ∈ l, e.name = "") :
    ∀ r : VarMap,
      l.foldl (fun r e => if e.name = "" then r else insert_entry r e.name e) r = r := by
  induction l with
  | nil => intro r; rfl
  | cons e l ih =>
    intro r
    have he : e.name = "" := h e (List.mem_cons_self _ _)
    simp only [List.foldl_cons, he, if_pos, ite_true]
    exact ih (fun e2 hm => h e2 (List.mem_cons_of_mem _ hm)) r

theorem mapM_takeWhileConv {α : Type} (f : JVal → Option α) (vs : List JVal) :
    ∀ l : List α, vs.mapM f = some l → takeWhileConv f vs = l := by
  induction vs with
  | nil =>
    intro l h
    simp only [List.mapM_nil, pure, Option.some.injEq] at h
    exact h ▸ rfl
  | cons v vs ih =>
    intro l h
    rw [List.mapM_cons] at h
    cases hf : f v with
    | none => rw [hf] at h; exact absurd h (by simp)
    | some a =>
      rw [hf] at h
      cases hm : vs.mapM f with
      | none => rw [hm] at h; exact absurd h (by simp)
      | some l2 =>
        rw [hm] at h
        have h2 : a :: l2 = l := by simpa using h
        subst h2
        simp only [takeWhileConv, hf]
        rw [ih l2 hm]

theorem foldlInsert_flatten (ms : List (List (String × Entry))) :
    ∀ r : VarMap, ms.foldl (fun r m => insertPairs r m) r = insertPairs r ms.flatten := by
  induction ms with
  | nil => intro r; rfl
  | cons m ms ih =>
    intro r
    rw [List.foldl_cons, List.flatten_cons]
    have happ : insertPairs r (m ++ ms.flatten) = insertPairs (insertPairs r m) ms.flatten := by
      simp [insertPairs, List.foldl_append]
    rw [happ]
    exact ih (insertPairs r m)

theorem insertPairs_append (r : VarMap) (ps qs : List (String × Entry)) :
    insertPairs r (ps ++ qs) = insertPairs (insertPairs r ps) qs := by
  simp [insertPairs, List.foldl_append]

/-- C6: per-entry tolerance of insert_entry: a String or Boolean entry whose
value does not coerce is kept under its name with the zero value (empty
string, false); a Json entry whose value does not parse under the JsonValue
schema is kept with the null placeholder; an entry of unknown declared type
is silently omitted while the remaining entries are still produced. -/
theorem entry_coercion_tolerance :
    ∀ (r : VarMap) (n : String) (e : Entry),
      (e.typ = "String" → fieldStr e.value = none →
        insert_entry r n e = mapInsert r n
          (ProcessInstanceVariable.string { value := "", value_info := e.value_info })) ∧
      (e.typ = "Boolean" → fieldBool e.value = none →
        insert_entry r n e = mapInsert r n
          (ProcessInstanceVariable.boolean { value := false, value_info := e.value_info })) ∧
      (e.typ = "Json" → jsonValueOfJVal e.value = none →
        insert_entry r n e = mapInsert r n
          (ProcessInstanceVariable.json
            { json_value := fallbackJsonValue, value_info := e.value_info })) ∧
      (knownTypeB e.typ = false → insert_entry r n e = r) ∧
      (∀ (ps qs : List (String × Entry)), knownTypeB e.typ = false →
        insertPairs r (ps ++ (n, e) :: qs) = insertPairs r (ps ++ qs)) := by
  intro r n e
  obtain ⟨et, en, ev, evi⟩ := e
  refine ⟨?_, ?_, ?_, ?_, ?_⟩
  · intro ht hv
    subst ht
    simp [insert_entry, hv]
  · intro ht hv
    subst ht
    simp [insert_entry, hv]
  · intro ht hv
    subst ht
    simp [insert_entry, hv]
  · intro hk
    exact insert_entry_unknown r n _ hk
  · intro ps qs hk
    rw [insertPairs_append, insertPairs_append, insertPairs_cons,
      insert_entry_unknown _ n _ hk]

/-- C3: the single-shape decoder in src/process_variables/mod.rs (the one
src/api.rs imports) panics, modelled as Except.error, on a payload whose
entry declares type Boolean but carries a string value, contradicting the
never-raises contract; the four-shape decoder in
src/structures/process_variables.rs substitutes the zero value on the same
input, and syntactically invalid text yields the empty mapping in both. -/
theorem legacy_decoder_panics_on_type_mismatch :
    legacy_parse_process_instance_variables
      ("\x7b\"k\":\x7b\"type\":\"Boolean\",\"value\":\"x\",\"valueInfo\":\x7b\x7d\x7d\x7d") =
      Except.error () ∧
    parse_process_instance_variables
      ("\x7b\"k\":\x7b\"type\":\"Boolean\",\"value\":\"x\",\"valueInfo\":\x7b\x7d\x7d\x7d") =
      [("k", ProcessInstanceVariable.boolean { value := false, value_info := [] })] ∧
    legacy_parse_process_instance_variables ("\x7b\"invalid\":\x7d") = Except.ok [] := by
  exact ⟨rfl, rfl, rfl⟩

/-- C10: flat-array decoding and the entry-sequence interpretation drop
every entry whose name is absent or empty; an entry sequence in which no
entry carries a non-empty name produces nothing and falls back to the
map-sequence interpretation. -/
theorem unnamed_entries_dropped_sequence_fallback :
    ∀ s : String,
      (shape1 s = none → ∀ l, shape2 s = some l →
        parse_process_instance_variables s = insertPairs [] (entryPairs l)) ∧
      (shape1 s = none → shape2 s = none → shape3 s = none →
        (∃ e ∈ takeWhileConv entryOfJVal (streamVals s), e.name ≠ "") →
        parse_process_instance_variables s =
          insertPairs [] (entryPairs (takeWhileConv entryOfJVal (streamVals s)))) ∧
      (shape1 s = none → shape2 s = none → shape3 s = none →
        (∀ e ∈ takeWhileConv entryOfJVal (streamVals s), e.name = "") →
        parse_process_instance_variables s =
          (takeWhileConv hashMapEntriesOfJVal (streamVals s)).foldl
            (fun r m => insertPairs r m) []) := by
  intro s
  refine ⟨?_, ?_, ?_⟩
  · intro h1 l h2
    have hparse : parse_process_instance_variables s = processShape2 l := by
      simp [parse_process_instance_variables, h1, h2]
    rw [hparse]
    exact skipFold_eq_insertPairs l []
  · intro h1 h2 h3 hex
    have hparse : parse_process_instance_variables s = processShape4 (streamVals s) := by
      simp [parse_process_instance_variables, h1, h2, h3]
    rw [hparse]
    unfold processShape4
    have hany : (takeWhileConv entryOfJVal (streamVals s)).any
        (fun e => !(e.name == "")) = true := by
      rcases hex with ⟨e, he, hne⟩
      exact List.any_eq_true.mpr ⟨e, he, by simpa using hne⟩
    simp only [hany, if_pos, ite_true]
    exact skipFold_eq_insertPairs _ []
  · intro h1 h2 h3 hall
    have hparse : parse_process_instance_variables s = processShape4 (streamVals s) := by
      simp [parse_process_instance_variables, h1, h2, h3]
    rw [hparse]
    unfold processShape4
    have hany : (takeWhileConv entryOfJVal (streamVals s)).any
        (fun e => !(e.name == "")) = false := by
      rw [List.any_eq_false]
      intro e he
      simp [hall e he]
    simp only [hany, Bool.false_eq_true, if_neg, ite_false]
    rw [allUnnamed_skipFold _ hall]

theorem entryPairs_all_named (l : List Entry) (h : ∀ e ∈ l, e.name ≠ "") :
    entryPairs l = l.map (fun e => (e.name, e)) := by
  induction l with
  | nil => rfl
  | cons e l ih =>
    have he : ¬(e.name = "") := h e (List.mem_cons_self _ _)
    simp only [entryPairs, List.filterMap_cons, he, if_neg, ite_false, List.map_cons]
    rw [← entryPairs]
    rw [ih (fun e2 hm => h e2 (List.mem_cons_of_mem _ hm))]

theorem mapM_some_length {α : Type} (f : JVal → Option α) (vs : List JVal) :
    ∀ l : List α, vs.mapM f = some l → vs.length = l.length := by
  induction vs with
  | nil =>
    intro l h
    simp only [List.mapM_nil, pure, Option.some.injEq] at h
    simp [← h]
  | cons v vs ih =>
    intro l h
    rw [List.mapM_cons] at h
    cases hf : f v with
    | none => rw [hf] at h; exact absurd h (by simp)
    | some a =>
      rw [hf] at h
      cases hm : vs.mapM f with
      | none => rw [hm] at h; exact absurd h (by simp)
      | some l2 =>
        rw [hm] at h
        have h2 : a :: l2 = l := by simpa using h
        subst h2
        simp [ih l2 hm]

theorem insertPairs_nil_char (ps : List (String × Entry))
    (hknown : ∀ p ∈ ps, knownTypeB p.2.typ = true)
    (hnodup : (ps.map Prod.fst).Nodup) :
    (insertPairs [] ps).length = ps.length ∧
    (∀ p ∈ ps, lookupKey (insertPairs [] ps) p.1 = some (var_of_entry p.2) ∧
      tag_of (var_of_entry p.2) = p.2.typ) := by
  obtain ⟨hlen, hlook, _⟩ :=
    insertPairs_char ps [] hknown hnodup (fun p _ => rfl)
  refine ⟨by simpa using hlen, fun p hp => ⟨hlook p hp, tag_var_of_entry _ (hknown p hp)⟩⟩

theorem namedEntries_char (l : List Entry)
    (hknown : ∀ e ∈ l, knownTypeB e.typ = true)
    (hnames : ∀ e ∈ l, e.name ≠ "")
    (hnodup : (l.map (fun e => e.name)).Nodup) :
    (insertPairs [] (entryPairs l)).length = l.length ∧
    (∀ e ∈ l, lookupKey (insertPairs [] (entryPairs l)) e.name = some (var_of_entry e) ∧
      tag_of (var_of_entry e) = e.typ) := by
  rw [entryPairs_all_named l hnames]
  have hknown2 : ∀ p ∈ l.map (fun e => (e.name, e)), knownTypeB p.2.typ = true := by
    intro p hp
    rcases List.mem_map.mp hp with ⟨e, he, hpe⟩
    exact hpe ▸ hknown e he
  have hnodup2 : ((l.map (fun e => (e.name, e))).map Prod.fst).Nodup := by
    rw [List.map_map]
    exact hnodup
  obtain ⟨hlen, hlook⟩ := insertPairs_nil_char _ hknown2 hnodup2
  refine ⟨by simpa using hlen, fun e he => ?_⟩
  exact hlook (e.name, e) (List.mem_map_of_mem _ he)

/-- C4: a well-formed payload in any of the four wire shapes (object map,
flat array of named entries, array of object maps, concatenated sequence of
entries or of maps) decodes to a mapping whose size equals the number of
named entries, with each entry found under its name and tagged according to
its declared type. -/
theorem wellformed_payloads_decode_completely :
    ∀ s : String,
      (∀ m, shape1 s = some m →
        (∀ p ∈ m, knownTypeB p.2.typ = true) →
        (parse_process_instance_variables s).length = m.length ∧
        (∀ p ∈ m, lookupKey (parse_process_instance_variables s) p.1 =
          some (var_of_entry p.2) ∧ tag_of (var_of_entry p.2) = p.2.typ)) ∧
      (shape1 s = none → ∀ l, shape2 s = some l →
        (∀ e ∈ l, knownTypeB e.typ = true) →
        (∀ e ∈ l, e.name ≠ "") →
        (l.map (fun e => e.name)).Nodup →
        (parse_process_instance_variables s).length = l.length ∧
        (∀ e ∈ l, lookupKey (parse_process_instance_variables s) e.name =
          some (var_of_entry e) ∧ tag_of (var_of_entry e) = e.typ)) ∧
      (shape1 s = none → shape2 s = none → ∀ ms, shape3 s = some ms →
        (∀ p ∈ ms.flatten, knownTypeB p.2.typ = true) →
        (ms.flatten.map Prod.fst).Nodup →
        (parse_process_instance_variables s).length = ms.flatten.length ∧
        (∀ p ∈ ms.flatten, lookupKey (parse_process_instance_variables s) p.1 =
          some (var_of_entry p.2) ∧ tag_of (var_of_entry p.2) = p.2.typ)) ∧
      (shape1 s = none → shape2 s = none → shape3 s = none →
        ∀ l, (streamVals s).mapM entryOfJVal = some l →
        (∀ e ∈ l, knownTypeB e.typ = true) →
        (∀ e ∈ l, e.name ≠ "") →
        (l.map (fun e => e.name)).Nodup →
        (parse_process_instance_variables s).length = l.length ∧
        (∀ e ∈ l, lookupKey (parse_process_instance_variables s) e.name =
          some (var_of_entry e) ∧ tag_of (var_of_entry e) = e.typ)) ∧
      (shape1 s = none → shape2 s = none → shape3 s = none →
        takeWhileConv entryOfJVal (streamVals s) = [] →
        ∀ ms, (streamVals s).mapM hashMapEntriesOfJVal = some ms →
        (∀ p ∈ ms.flatten, knownTypeB p.2.typ = true) →
        (ms.flatten.map Prod.fst).Nodup →
        (parse_process_instance_variables s).length = ms.flatten.length ∧
        (∀ p ∈ ms.flatten, lookupKey (parse_process_instance_variables s) p.1 =
          some (var_of_entry p.2) ∧ tag_of (var_of_entry p.2) = p.2.typ)) := by
  intro s
  refine ⟨?_, ?_, ?_, ?_, ?_⟩
  · intro m h1 hknown
    have hparse : parse_process_instance_variables s = insertPairs [] m := by
      simp [parse_process_instance_variables, h1, processShape1]
    rw [hparse]
    exact insertPairs_nil_char m hknown (shape1_nodup s m h1)
  · intro h1 l h2 hknown hnames hnodup
    have hparse : parse_process_instance_variables s = insertPairs [] (entryPairs l) := by
      have h : parse_process_instance_variables s = processShape2 l := by
        simp [parse_process_instance_variables, h1, h2]
      rw [h]
      exact skipFold_eq_insertPairs l []
    rw [hparse]
    exact namedEntries_char l hknown hnames hnodup
  · intro h1 h2 ms h3 hknown hnodup
    have hparse : parse_process_instance_variables s = insertPairs [] ms.flatten := by
      have h : parse_process_instance_variables s = processShape3 ms := by
        simp [parse_process_instance_variables, h1, h2, h3]
      rw [h]
      exact foldlInsert_flatten ms []
    rw [hparse]
    exact insertPairs_nil_char ms.flatten hknown hnodup
  · intro h1 h2 h3 l hmapm hknown hnames hnodup
    have hp : takeWhileConv entryOfJVal (streamVals s) = l :=
      mapM_takeWhileConv entryOfJVal (streamVals s) l hmapm
    have hparse0 : parse_process_instance_variables s = processShape4 (streamVals s) := by
      simp [parse_process_instance_variables, h1, h2, h3]
    cases hl : l with
    | nil =>
      have hvs : streamVals s = [] := by
        have := mapM_some_length entryOfJVal (streamVals s) l hmapm
        rw [hl] at this
        exact List.length_eq_zero.mp this
      rw [hparse0, hvs]
      exact ⟨rfl, by simp⟩
    | cons e0 l2 =>
      subst hl
      have hany : (takeWhileConv entryOfJVal (streamVals s)).any
          (fun e => !(e.name == "")) = true := by
        rw [hp]
        refine List.any_eq_true.mpr ⟨e0, List.mem_cons_self _ _, ?_⟩
        simpa using hnames e0 (List.mem_cons_self _ _)
      have hparse : parse_process_instance_variables s =
          insertPairs [] (entryPairs (e0 :: l2)) := by
        rw [hparse0]
        unfold processShape4
        simp only [hany, if_pos, ite_true]
        rw [hp]
        exact skipFold_eq_insertPairs _ []
      rw [hparse]
      exact namedEntries_char (e0 :: l2) hknown hnames hnodup
  · intro h1 h2 h3 hempty ms hmapm hknown hnodup
    have hq : takeWhileConv hashMapEntriesOfJVal (streamVals s) = ms :=
      mapM_takeWhileConv hashMapEntriesOfJVal (streamVals s) ms hmapm
    have hany : (takeWhileConv entryOfJVal (streamVals s)).any
        (fun e => !(e.name == "")) = false := by
      rw [hempty]
      rfl
    have hparse : parse_process_instance_variables s = insertPairs [] ms.flatten := by
      have h : parse_process_instance_variables s = processShape4 (streamVals s) := by
        simp [parse_process_instance_variables, h1, h2, h3]
      rw [h]
      unfold processShape4
      simp only [hany, Bool.false_eq_true, if_neg, ite_false]
      rw [hempty, hq]
      simp only [List.foldl_nil]
      exact foldlInsert_flatten ms []
    rw [hparse]
    exact insertPairs_nil_char ms.flatten hknown hnodup

theorem dispatch_report_matches_handler_outcome_witness :
    process_service_task defaultConfigParams env_ok task_t1 =
      [Event.lock ("t1") ("operaton_task_worker") 60000,
       Event.fetch_variables ("p1"),
       Event.invoke_handler ("act1"),
       Event.complete ("t1") ("operaton_task_worker") [(("r"), out_string ("done"))]] :=
  (dispatch_report_matches_handler_outcome defaultConfigParams env_ok task_t1 handler_ok rfl rfl).1 _ rfl

theorem decoder_shape_order_first_success_witness :
    parse_process_instance_variables ("\x7b\x7d") = [] ∧
    parse_process_instance_variables ("[]") = [] :=
  ⟨(decoder_shape_order_first_success ("\x7b\x7d")).2.2.2.2.1 rfl, (decoder_shape_order_first_success ("[]")).2.2.2.2.2 rfl rfl⟩

theorem wellformed_payloads_decode_completely_witness :
    (parse_process_instance_variables payload_bool).length = 1 ∧
    lookupKey (parse_process_instance_variables payload_bool) ("k") =
      some (ProcessInstanceVariable.boolean { value := true, value_info := [] }) := by
  have h := (wellformed_payloads_decode_completely payload_bool).1
    [(("k"), { typ := "Boolean", name := "", value := JVal.bool true, value_info := [] })]
    rfl (by decide)
  exact ⟨h.1, ((h.2 _ (List.mem_cons_self _ _)).1).trans rfl⟩

theorem entry_coercion_tolerance_witness :
    insert_entry [] ("k") entry_str_mismatch =
      [(("k"), ProcessInstanceVariable.string { value := "", value_info := [] })] ∧
    insert_entry [] ("k") entry_unknown = [] :=
  ⟨((entry_coercion_tolerance [] ("k") entry_str_mismatch).1 rfl rfl).trans rfl,
   (entry_coercion_tolerance [] ("k") entry_unknown).2.2.2.1 rfl⟩

theorem skipped_tasks_no_reports_batch_continues_witness :
    process_service_task defaultConfigParams env_lock_fails task_t1 =
      [Event.lock ("t1") ("operaton_task_worker") 60000] ∧
    process_service_task defaultConfigParams env_no_handler task_t1 =
      [Event.lock ("t1") ("operaton_task_worker") 60000, Event.fetch_variables ("p1")] ∧
    process_batch defaultConfigParams env_lock_fails [task_t1, task_t1] =
      process_service_task defaultConfigParams env_lock_fails task_t1 ++
        process_batch defaultConfigParams env_lock_fails [task_t1] :=
  ⟨((skipped_tasks_no_reports_batch_continues defaultConfigParams env_lock_fails task_t1).1 rfl).1,
   ((skipped_tasks_no_reports_batch_continues defaultConfigParams env_no_handler task_t1).2.1 rfl rfl).1,
   (skipped_tasks_no_reports_batch_continues defaultConfigParams env_lock_fails task_t1).2.2 [task_t1]⟩

theorem registry_exact_match_first_wins_witness :
    find reg_dup ("h1") = some handler_ok ∧ ("h1") ∈ all_names reg_dup :=
  ⟨registry_exact_match_first_wins.2.1 [] [{ name := "h1", func := handler_err }]
      { name := "h1", func := handler_ok } ("h1") rfl
      (fun h2 hh => absurd hh (List.not_mem_nil h2)),
   registry_exact_match_first_wins.2.2 reg_dup { name := "h1", func := handler_ok } (List.mem_cons_self _ _)⟩

theorem unnamed_entries_dropped_sequence_fallback_witness :
    parse_process_instance_variables payload_flat_mixed =
      [(("m"), ProcessInstanceVariable.string { value := "y", value_info := [] })] ∧
    parse_process_instance_variables payload_seq_maps =
      [(("a"), ProcessInstanceVariable.string { value := "u", value_info := [] }),
       (("b"), ProcessInstanceVariable.boolean { value := true, value_info := [] })] :=
  ⟨((unnamed_entries_dropped_sequence_fallback payload_flat_mixed).1 rfl _ rfl).trans rfl,
   ((unnamed_entries_dropped_sequence_fallback payload_seq_maps).2.2 rfl rfl rfl (by decide)).trans rfl⟩
